import Mathlib

/-!
Verification of the hypopg planner-hook interception and
simulated-catalog injection engine (src/hypopg.c).

The embedding models the extension's global state (the `isExplain` flag,
the `hypopg.enabled` toggle, and the registries of hypothetical indexes
and hypothetical partitioned tables), the Explain-Mode detector
(`hypo_query_walker`), every planner/executor hook installed by the
extension, and the install/teardown functions `_PG_init` / `_PG_fini`.

Hooks that mutate planner working structures are modelled as functions
producing a trace of observable injection/delegation actions; hooks that
return a value are modelled directly.  The executor-end hook is modelled
with an `Except` whose error value carries the global state at the point
the error was raised, so that error-path behaviour of the `isExplain`
flag is expressible.

Registry internals (`hypo_table_oid_is_hypothetical`, `hypo_find_table`,
`hypo_find_inheritance_children`, `hypo_index_reset`, `hypo_table_reset`,
`hypo_generate_partitiondesc`) are implemented in repository files not
present in this excerpt; those definitions are modelled from the spec and
say so in their doc comments.
-/

namespace HypoPG

/-- Object identifiers (PostgreSQL `Oid`). -/
abbrev Oid := Nat

/-- An option of an EXPLAIN statement: a `DefElem`, reduced to its
`defname` string, which is all `hypo_query_walker` inspects. -/
structure DefElem where
  defname : String
deriving Repr, DecidableEq

/-- The utility statements `hypo_query_walker` distinguishes: an
`ExplainStmt` with its option list, or any other statement kind. -/
inductive Stmt where
  | explainStmt (options : List DefElem)
  | otherStmt
deriving Repr, DecidableEq

/-- A `PlannedStmt` wrapping a utility statement (possibly NULL), as
handed to `ProcessUtility` on PostgreSQL 10 and later. -/
structure PlannedStmt where
  utilityStmt : Option Stmt
deriving Repr, DecidableEq

/-- Relation kinds relevant to `hypo_get_relation_info_hook`:
`RELKIND_RELATION` (an ordinary table), `RELKIND_MATVIEW`, or any other
relation kind. -/
inductive RelKind where
  | relation
  | matview
  | otherKind
deriving Repr, DecidableEq

/-- A hypothetical index registry entry (`hypoIndex`), reduced to the
fields `hypo_get_relation_info_hook` consults: its synthetic identifier
and the identifier of the table it shadows (`relid`). -/
structure hypoIndex where
  oid : Oid
  relid : Oid
deriving Repr, DecidableEq

/-- A hypothetical partitioned table registry entry (`hypoTable`),
reduced to the fields the partitioning hooks consult: its identifier,
the identifiers of its synthesized child partitions (in declaration
order), and its partition key, abstracted to an identifier. -/
structure hypoTable where
  oid : Oid
  children : List Oid
  partkey : Nat
deriving Repr, DecidableEq

/-- The extension's global state: the `isExplain` flag, the
`hypopg.enabled` setting (`hypo_is_enabled`), and the two registries
(`hypoIndexes` and the hypothetical-table list). -/
structure HypoState where
  isExplain : Bool
  hypo_is_enabled : Bool
  hypoIndexes : List hypoIndex
  hypoTables : List hypoTable
deriving Repr, DecidableEq

/-- The `HYPO_ENABLED()` macro: `isExplain && hypo_is_enabled`. -/
def HYPO_ENABLED (s : HypoState) : Bool :=
  s.isExplain && s.hypo_is_enabled

/-- Modelled from the spec: `hypo_table_oid_is_hypothetical` (defined in
the registry file absent from this excerpt) answers whether the given
identifier is that of a registered hypothetical table. -/
def hypo_table_oid_is_hypothetical (s : HypoState) (relid : Oid) : Bool :=
  s.hypoTables.any (fun t => t.oid == relid)

/-- Modelled from the spec: `hypo_find_table` (defined in the registry
file absent from this excerpt) looks up the hypothetical-table entry for
an identifier; in the C code it raises an error when no entry exists,
modelled here by `none`. -/
def hypo_find_table (s : HypoState) (relid : Oid) : Option hypoTable :=
  s.hypoTables.find? (fun t => t.oid == relid)

/-- Modelled from the spec: `hypo_find_inheritance_children` (defined in
the registry file absent from this excerpt) returns the identifiers of a
hypothetical table's synthesized children. -/
def hypo_find_inheritance_children (t : hypoTable) : List Oid :=
  t.children

/-- A partition descriptor, abstracted to the ordered list of child
partition identifiers it describes. -/
abbrev PartitionDesc := List Oid

/-- Modelled from the spec: `hypo_generate_partitiondesc` (defined in
the table file absent from this excerpt) synthesizes the partition
descriptor of a hypothetical table from its in-memory child list. -/
def hypo_generate_partitiondesc (t : hypoTable) : PartitionDesc :=
  t.children

/-- Observable actions of the planner-structure-mutating hooks: the
injection operations of the injection engine, plus delegation to the
previously installed handler. -/
inductive Action where
  | injectIndex (entry : hypoIndex)
  | injectPartitioning (relid : Oid)
  | setPartitionPathlist (rti : Nat)
  | expandChildRTE (relid : Oid)
  | buildChildRTE (relid : Oid)
  | callPrev
deriving Repr, DecidableEq

/-- The `foreach` loop of `hypo_get_relation_info_hook` over
`hypoIndexes`: each entry whose `relid` matches the relation being
examined is injected (`hypo_injectHypotheticalIndex`), in list order. -/
def hypo_inject_matching : List hypoIndex → Oid → List Action
  | [], _ => []
  | e :: rest, relid =>
      (if e.relid == relid then [Action.injectIndex e] else [])
        ++ hypo_inject_matching rest relid

/-- `hypo_get_relation_info_hook`: when `HYPO_ENABLED()`, open the
relation; if its kind is an ordinary table (or a materialized view),
inject every matching hypothetical index; then, if the identifier is
that of a hypothetical table, inject hypothetical partitioning; finally
delegate to the previous handler when one is installed.  `relkindOf`
models the catalog lookup `relation->rd_rel->relkind` performed through
`heap_open`. -/
def hypo_get_relation_info_hook (s : HypoState) (relkindOf : Oid → RelKind)
    (hasPrev : Bool) (relationObjectId : Oid) : List Action :=
  (if HYPO_ENABLED s then
    (if relkindOf relationObjectId = RelKind.relation
        ∨ relkindOf relationObjectId = RelKind.matview then
      hypo_inject_matching s.hypoIndexes relationObjectId
    else [])
    ++
    (if hypo_table_oid_is_hypothetical s relationObjectId then
      [Action.injectPartitioning relationObjectId]
    else [])
  else [])
  ++ (if hasPrev then [Action.callPrev] else [])

/-- A range-table entry, reduced to the fields the hooks consult. -/
structure RangeTblEntry where
  relid : Oid
  relkind : RelKind
deriving Repr, DecidableEq

/-- `hypo_set_rel_pathlist_hook`: when `HYPO_ENABLED()`, the entry's
relation is a hypothetical table and its relkind is an ordinary
relation, run `hypo_setPartitionPathlist`; then delegate to the previous
handler when one is installed. -/
def hypo_set_rel_pathlist_hook (s : HypoState) (hasPrev : Bool)
    (rti : Nat) (rte : RangeTblEntry) : List Action :=
  (if HYPO_ENABLED s
      ∧ hypo_table_oid_is_hypothetical s rte.relid
      ∧ rte.relkind = RelKind.relation then
    [Action.setPartitionPathlist rti]
  else [])
  ++ (if hasPrev then [Action.callPrev] else [])

/-- `hypo_RelationGetPartitionDesc_hook`: when `HYPO_ENABLED()` and the
identifier is hypothetical, return the synthesized partition descriptor
of the found table; otherwise delegate to the previous handler, or
return NULL when none is installed. -/
def hypo_RelationGetPartitionDesc_hook (s : HypoState)
    (prev : Option (Oid → Option PartitionDesc)) (relid : Oid) :
    Option PartitionDesc :=
  if HYPO_ENABLED s ∧ hypo_table_oid_is_hypothetical s relid then
    (hypo_find_table s relid).map hypo_generate_partitiondesc
  else
    match prev with
    | some p => p relid
    | none => none

/-- `hypo_RelationGetPartitionKey_hook`: when `HYPO_ENABLED()` and the
identifier is hypothetical, return the found table's partition key;
otherwise delegate to the previous handler, or return NULL when none is
installed. -/
def hypo_RelationGetPartitionKey_hook (s : HypoState)
    (prev : Option (Oid → Option Nat)) (relid : Oid) : Option Nat :=
  if HYPO_ENABLED s ∧ hypo_table_oid_is_hypothetical s relid then
    (hypo_find_table s relid).map (fun t => t.partkey)
  else
    match prev with
    | some p => p relid
    | none => none

/-- `hypo_skip_has_subclass_hook`: when `HYPO_ENABLED()` and the
identifier is hypothetical, answer true; otherwise delegate to the
previous handler, or return false when none is installed. -/
def hypo_skip_has_subclass_hook (s : HypoState)
    (prev : Option (Oid → Bool)) (parentOID : Oid) : Bool :=
  if HYPO_ENABLED s ∧ hypo_table_oid_is_hypothetical s parentOID then
    true
  else
    match prev with
    | some p => p parentOID
    | none => false

/-- `hypo_find_all_inheritors_hook`: when `HYPO_ENABLED()` and the
identifier is hypothetical, cons the identifier onto the identifiers of
the table's synthesized children (`lcons_oid`); otherwise delegate to
the previous handler, or return NIL when none is installed.  The `none`
branch of the lookup is unreachable under the guard (the C code raises
an error there). -/
def hypo_find_all_inheritors_hook (s : HypoState)
    (prev : Option (Oid → List Oid)) (relid : Oid) : List Oid :=
  if HYPO_ENABLED s ∧ hypo_table_oid_is_hypothetical s relid then
    match hypo_find_table s relid with
    | some table => relid :: hypo_find_inheritance_children table
    | none => []
  else
    match prev with
    | some p => p relid
    | none => []

/-- `hypo_expand_child_rtentry_hook`: when `HYPO_ENABLED()` and the
parent relation's identifier is hypothetical, run `hypo_ExpandChildRTE`;
then delegate to the previous handler when one is installed. -/
def hypo_expand_child_rtentry_hook (s : HypoState) (hasPrev : Bool)
    (parentrelId : Oid) : List Action :=
  (if HYPO_ENABLED s ∧ hypo_table_oid_is_hypothetical s parentrelId then
    [Action.expandChildRTE parentrelId]
  else [])
  ++ (if hasPrev then [Action.callPrev] else [])

/-- `hypo_build_child_rtentry_hook`: when `HYPO_ENABLED()` and the child
entry's relation identifier is hypothetical, run `hypo_BuildChildRTE`;
then delegate to the previous handler when one is installed. -/
def hypo_build_child_rtentry_hook (s : HypoState) (hasPrev : Bool)
    (childrte : RangeTblEntry) : List Action :=
  (if HYPO_ENABLED s ∧ hypo_table_oid_is_hypothetical s childrte.relid then
    [Action.buildChildRTE childrte.relid]
  else [])
  ++ (if hasPrev then [Action.callPrev] else [])

/-- The behaviour of a value-returning extensibility point when this
extension is not loaded: the previously installed handler runs if one
exists, otherwise the host default value is produced. -/
def unloadedDelegate {α : Type} (prev : Option (Oid → α)) (dflt : α)
    (relid : Oid) : α :=
  match prev with
  | some p => p relid
  | none => dflt

/-- The action trace of a planner-structure-mutating extensibility point
when this extension is not loaded: only the previously installed
handler, if any. -/
def unloadedTrace (hasPrev : Bool) : List Action :=
  if hasPrev then [Action.callPrev] else []

/-- `hypo_query_walker` as invoked through
`query_or_expression_tree_walker` on the top-level node: a NULL node
yields false; a `PlannedStmt` with a NULL `utilityStmt` yields false; an
`ExplainStmt` yields false as soon as an option named "analyze" is found
in its option list and true otherwise; any other statement yields
false. -/
def hypo_query_walker : Option PlannedStmt → Bool
  | none => false
  | some ps =>
      match ps.utilityStmt with
      | none => false
      | some stmt =>
          match stmt with
          | Stmt.explainStmt options =>
              if options.any (fun opt => opt.defname == "analyze") then
                false
              else
                true
          | Stmt.otherStmt => false

/-- The result of running a statement phase: either a normal state, or
an error carrying the global state at the point the error was raised
together with a message. -/
abbrev HookResult := Except (HypoState × String) HypoState

/-- The global state an execution outcome leaves behind, whether it
completed normally or raised an error. -/
def endState : HookResult → HypoState
  | Except.ok t => t
  | Except.error (t, _) => t

/-- A delegate (previously installed handler, or the host's standard
implementation) that never writes this extension's `isExplain` flag:
whatever state it finishes or fails in has the flag it was given. -/
def preservesIsExplain (delegate : HypoState → HookResult) : Prop :=
  ∀ t, (endState (delegate t)).isExplain = t.isExplain

/-- `hypo_executorEnd_hook`: assign `isExplain = false`, then delegate
to the previous `ExecutorEnd` handler or to `standard_ExecutorEnd`. -/
def hypo_executorEnd_hook (delegate : HypoState → HookResult)
    (s : HypoState) : HookResult :=
  delegate { s with isExplain := false }

/-- `hypo_utility_hook`: set `isExplain` from the Explain-Mode detector
applied to the incoming statement, then delegate to the previous
`ProcessUtility` handler or to `standard_ProcessUtility`. -/
def hypo_utility_hook (delegate : HypoState → HookResult)
    (pstmt : Option PlannedStmt) (s : HypoState) : HookResult :=
  delegate { s with isExplain := hypo_query_walker pstmt }

/-- Modelled from the spec: `hypo_index_reset` (defined in the index
file absent from this excerpt) discards every hypothetical-index entry
of the registry. -/
def hypo_index_reset (s : HypoState) : HypoState :=
  { s with hypoIndexes := [] }

/-- Modelled from the spec: `hypo_table_reset` (defined in the table
file absent from this excerpt) discards every hypothetical-table entry
of the registry. -/
def hypo_table_reset (s : HypoState) : HypoState :=
  { s with hypoTables := [] }

/-- `hypopg_reset`: run `hypo_index_reset` then `hypo_table_reset` and
return void (`PG_RETURN_VOID`). -/
def hypopg_reset (s : HypoState) : HypoState × Unit :=
  (hypo_table_reset (hypo_index_reset s), ())

/-- A handler registered at an extensibility point: one of this
extension's eleven hook functions, or an external handler identified by
a number (another extension's handler; the empty slot is `none` at the
`Option Handler` level). -/
inductive Handler where
  | hypoUtility
  | hypoExecutorEnd
  | hypoGetRelationInfo
  | hypoExplainGetIndexName
  | hypoSetRelPathlist
  | hypoRelationGetPartitionDesc
  | hypoRelationGetPartitionKey
  | hypoSkipHasSubclass
  | hypoFindAllInheritors
  | hypoExpandChildRtentry
  | hypoBuildChildRtentry
  | externalHandler (id : Nat)
deriving Repr, DecidableEq

/-- The host's global table of the eleven extensibility points this
extension installs into; `none` is an empty slot. -/
structure HookTable where
  processUtility : Option Handler
  executorEnd : Option Handler
  getRelationInfo : Option Handler
  explainGetIndexName : Option Handler
  setRelPathlist : Option Handler
  relationGetPartitionDesc : Option Handler
  relationGetPartitionKey : Option Handler
  skipHasSubclass : Option Handler
  findAllInheritors : Option Handler
  expandChildRtentry : Option Handler
  buildChildRtentry : Option Handler
deriving Repr, DecidableEq

/-- The extension's static `prev_*` variables: the handler each
extensibility point held when `_PG_init` ran. -/
structure PrevTable where
  prev_utility_hook : Option Handler
  prev_ExecutorEnd_hook : Option Handler
  prev_get_relation_info_hook : Option Handler
  prev_explain_get_index_name_hook : Option Handler
  prev_set_rel_pathlist_hook : Option Handler
  prev_RelationGetPartitionDesc_hook : Option Handler
  prev_RelationGetPartitionKey_hook : Option Handler
  prev_skip_has_subclass_hook : Option Handler
  prev_find_all_inheritors_hook : Option Handler
  prev_expand_child_rtentry_hook : Option Handler
  prev_build_child_rtentry_hook : Option Handler
deriving Repr, DecidableEq

/-- The hook table after `_PG_init` has installed this extension's
handler at every extensibility point. -/
def hypoHandlers : HookTable where
  processUtility := some Handler.hypoUtility
  executorEnd := some Handler.hypoExecutorEnd
  getRelationInfo := some Handler.hypoGetRelationInfo
  explainGetIndexName := some Handler.hypoExplainGetIndexName
  setRelPathlist := some Handler.hypoSetRelPathlist
  relationGetPartitionDesc := some Handler.hypoRelationGetPartitionDesc
  relationGetPartitionKey := some Handler.hypoRelationGetPartitionKey
  skipHasSubclass := some Handler.hypoSkipHasSubclass
  findAllInheritors := some Handler.hypoFindAllInheritors
  expandChildRtentry := some Handler.hypoExpandChildRtentry
  buildChildRtentry := some Handler.hypoBuildChildRtentry

/-- `_PG_init`: save the current handler of each of the eleven
extensibility points into the `prev_*` variables, install this
extension's handlers, and initialize `isExplain` to false and
`hypoIndexes` to NIL. -/
def _PG_init (g : HookTable) (s : HypoState) :
    HookTable × PrevTable × HypoState :=
  (hypoHandlers,
   { prev_utility_hook := g.processUtility
     prev_ExecutorEnd_hook := g.executorEnd
     prev_get_relation_info_hook := g.getRelationInfo
     prev_explain_get_index_name_hook := g.explainGetIndexName
     prev_set_rel_pathlist_hook := g.setRelPathlist
     prev_RelationGetPartitionDesc_hook := g.relationGetPartitionDesc
     prev_RelationGetPartitionKey_hook := g.relationGetPartitionKey
     prev_skip_has_subclass_hook := g.skipHasSubclass
     prev_find_all_inheritors_hook := g.findAllInheritors
     prev_expand_child_rtentry_hook := g.expandChildRtentry
     prev_build_child_rtentry_hook := g.buildChildRtentry },
   { s with isExplain := false, hypoIndexes := [] })

/-- `_PG_fini`: write the saved `prev_*` handler back into every one of
the eleven extensibility points. -/
def _PG_fini (p : PrevTable) : HookTable where
  processUtility := p.prev_utility_hook
  executorEnd := p.prev_ExecutorEnd_hook
  getRelationInfo := p.prev_get_relation_info_hook
  explainGetIndexName := p.prev_explain_get_index_name_hook
  setRelPathlist := p.prev_set_rel_pathlist_hook
  relationGetPartitionDesc := p.prev_RelationGetPartitionDesc_hook
  relationGetPartitionKey := p.prev_RelationGetPartitionKey_hook
  skipHasSubclass := p.prev_skip_has_subclass_hook
  findAllInheritors := p.prev_find_all_inheritors_hook
  expandChildRtentry := p.prev_expand_child_rtentry_hook
  buildChildRtentry := p.prev_build_child_rtentry_hook

/-- The hypothetical-index entries a relation-info trace injected, in
trace order. -/
def injectedIndexes (tr : List Action) : List hypoIndex :=
  tr.filterMap (fun a =>
    match a with
    | Action.injectIndex e => some e
    | _ => none)

/-- Splitting a trace splits its injected-index projection. -/
theorem injectedIndexes_append (a b : List Action) :
    injectedIndexes (a ++ b) = injectedIndexes a ++ injectedIndexes b := by
  simp [injectedIndexes]

/-- The injection loop over the registry injects exactly the entries
whose `relid` matches, in list order. -/
theorem injectedIndexes_inject_matching (l : List hypoIndex) (relid : Oid) :
    injectedIndexes (hypo_inject_matching l relid)
      = l.filter (fun e => e.relid == relid) := by
  induction l with
  | nil => rfl
  | cons e rest ih =>
      cases h : e.relid == relid <;>
        simp [hypo_inject_matching, injectedIndexes, List.filter_cons, h] <;>
        simpa [injectedIndexes] using ih

/-- A hypothetical identifier has a registry entry found by
`hypo_find_table`. -/
theorem find_table_of_hypothetical (s : HypoState) (relid : Oid)
    (h : hypo_table_oid_is_hypothetical s relid = true) :
    ∃ t, hypo_find_table s relid = some t := by
  unfold hypo_table_oid_is_hypothetical at h
  rw [List.any_eq_true] at h
  obtain ⟨t, ht, hp⟩ := h
  have hs : (hypo_find_table s relid).isSome := by
    unfold hypo_find_table
    rw [List.find?_isSome]
    exact ⟨t, ht, hp⟩
  exact Option.isSome_iff_exists.mp hs

/-- C1: the execution-completion hook `hypo_executorEnd_hook` resets the
Explain-Mode flag to false on every outcome — delegation completing
normally or raising an error — provided the delegated handler does not
itself write the flag, so a failed explain never leaves simulation mode
stuck on and the flag reads false before the next statement begins. -/
theorem executorEnd_clears_isExplain (delegate : HypoState → HookResult)
    (hd : preservesIsExplain delegate) (s : HypoState) :
    (endState (hypo_executorEnd_hook delegate s)).isExplain = false := by
  have h := hd { s with isExplain := false }
  simpa [hypo_executorEnd_hook] using h

/-- Witness for C1: a delegate that raises an error still leaves the
flag false. -/
theorem executorEnd_clears_isExplain_witness :
    (endState (hypo_executorEnd_hook
      (fun t => Except.error (t, "delegated handler failed"))
      ⟨true, true, [], []⟩)).isExplain = false :=
  executorEnd_clears_isExplain
    (fun t => Except.error (t, "delegated handler failed"))
    (fun _ => rfl) ⟨true, true, [], []⟩

/-- C9: `hypo_executorEnd_hook` performs the assignment
`isExplain = false` before delegating: its result is exactly the
delegate applied to a state whose Explain-Mode flag is already false,
so an error raised by the delegated handler propagates from a state
with the flag cleared. -/
theorem executorEnd_assigns_before_delegation
    (delegate : HypoState → HookResult) (s : HypoState) :
    ∃ t : HypoState, t.isExplain = false ∧
      hypo_executorEnd_hook delegate s = delegate t :=
  ⟨{ s with isExplain := false }, rfl, rfl⟩

/-- C3: the Explain-Mode detector yields false on a null statement, on
a planned statement wrapping no utility statement, and on any
non-explain statement; on an explain statement it yields false exactly
when the option list contains an option named "analyze" and true
otherwise. -/
theorem query_walker_spec :
    hypo_query_walker none = false
    ∧ (∀ ps : PlannedStmt, ps.utilityStmt = none →
        hypo_query_walker (some ps) = false)
    ∧ (∀ ps : PlannedStmt, ps.utilityStmt = some Stmt.otherStmt →
        hypo_query_walker (some ps) = false)
    ∧ (∀ (ps : PlannedStmt) (options : List DefElem),
        ps.utilityStmt = some (Stmt.explainStmt options) →
        (∃ opt ∈ options, opt.defname = "analyze") →
        hypo_query_walker (some ps) = false)
    ∧ (∀ (ps : PlannedStmt) (options : List DefElem),
        ps.utilityStmt = some (Stmt.explainStmt options) →
        (∀ opt ∈ options, opt.defname ≠ "analyze") →
        hypo_query_walker (some ps) = true) := by
  refine ⟨rfl, ?_, ?_, ?_, ?_⟩
  · intro ps h
    simp [hypo_query_walker, h]
  · intro ps h
    simp [hypo_query_walker, h]
  · intro ps options h ha
    obtain ⟨opt, hmem, hname⟩ := ha
    have : options.any (fun opt => opt.defname == "analyze") = true := by
      rw [List.any_eq_true]
      exact ⟨opt, hmem, by simpa using hname⟩
    simp [hypo_query_walker, h, this]
  · intro ps options h ha
    have : options.any (fun opt => opt.defname == "analyze") = false := by
      rw [Bool.eq_false_iff]
      intro hc
      rw [List.any_eq_true] at hc
      obtain ⟨opt, hmem, hname⟩ := hc
      exact ha opt hmem (by simpa using hname)
    simp [hypo_query_walker, h, this]

/-- Witness for C3: a plain explain yields true, explain analyze yields
false. -/
theorem query_walker_spec_witness :
    hypo_query_walker (some ⟨some (Stmt.explainStmt [⟨"analyze"⟩])⟩) = false
    ∧ hypo_query_walker (some ⟨some (Stmt.explainStmt [⟨"costs"⟩])⟩) = true := by
  constructor
  · exact query_walker_spec.2.2.2.1 ⟨some (Stmt.explainStmt [⟨"analyze"⟩])⟩
      [⟨"analyze"⟩] rfl ⟨⟨"analyze"⟩, by simp, rfl⟩
  · exact query_walker_spec.2.2.2.2 ⟨some (Stmt.explainStmt [⟨"costs"⟩])⟩
      [⟨"costs"⟩] rfl (by decide)

/-- C7: `hypopg_reset` discards every hypothetical-index and
hypothetical-table entry, returns void, and is idempotent: a second
reset from the state the first one produced changes nothing, for every
prior registry state. -/
theorem reset_idempotent (s : HypoState) :
    (hypopg_reset s).1.hypoIndexes = []
    ∧ (hypopg_reset s).1.hypoTables = []
    ∧ (hypopg_reset s).2 = ()
    ∧ hypopg_reset (hypopg_reset s).1 = hypopg_reset s := by
  cases s
  exact ⟨rfl, rfl, rfl, rfl⟩

/-- C8: `_PG_init` replaces each of the eleven extensibility points with
this extension's handler after saving the previous one, and `_PG_fini`
restores every point verbatim from the saved handlers, so install
followed by teardown is the identity on the hook table. -/
theorem init_fini_round_trip (g : HookTable) (s : HypoState) :
    (_PG_init g s).1 = hypoHandlers
    ∧ _PG_fini (_PG_init g s).2.1 = g := by
  cases g
  exact ⟨rfl, rfl⟩

/-- C4: during an active simulation window, when the examined relation's
kind is an ordinary table or a materialized view, the relation-info
hook injects exactly the registry entries whose owning-table identifier
equals the relation's identifier — all of them, in registry list order —
and no entry owned by another table. -/
theorem relation_info_injects_matching (s : HypoState)
    (relkindOf : Oid → RelKind) (hasPrev : Bool) (relid : Oid)
    (hEn : HYPO_ENABLED s = true)
    (hKind : relkindOf relid = RelKind.relation
      ∨ relkindOf relid = RelKind.matview) :
    injectedIndexes (hypo_get_relation_info_hook s relkindOf hasPrev relid)
      = s.hypoIndexes.filter (fun e => e.relid == relid) := by
  unfold hypo_get_relation_info_hook
  rw [if_pos hKind]
  simp only [hEn, if_true]
  rw [injectedIndexes_append, injectedIndexes_append,
    injectedIndexes_inject_matching]
  have h1 : injectedIndexes
      (if hypo_table_oid_is_hypothetical s relid then
        [Action.injectPartitioning relid] else []) = [] := by
    split <;> rfl
  have h2 : injectedIndexes
      (if hasPrev then [Action.callPrev] else []) = [] := by
    split <;> rfl
  rw [h1, h2, List.append_nil, List.append_nil]

/-- Witness for C4: with indexes on tables 10, 11 and 10 registered in
that order, examining table 10 injects the first and third entries, in
order. -/
theorem relation_info_injects_matching_witness :
    injectedIndexes (hypo_get_relation_info_hook
      ⟨true, true, [⟨100, 10⟩, ⟨101, 11⟩, ⟨102, 10⟩], []⟩
      (fun _ => RelKind.relation) true 10)
      = [⟨100, 10⟩, ⟨102, 10⟩] := by
  have h := relation_info_injects_matching
    ⟨true, true, [⟨100, 10⟩, ⟨101, 11⟩, ⟨102, 10⟩], []⟩
    (fun _ => RelKind.relation) true 10 rfl (Or.inl rfl)
  rw [h]
  rfl

/-- C10: hypothetical-partitioning injection in the relation-info hook
is gated only on the simulation window being active and the identifier
being a registered hypothetical table; it sits outside the
relation-kind check, so it fires whatever kind the opened relation
has. -/
theorem partitioning_injection_ignores_relkind (s : HypoState)
    (relkindOf : Oid → RelKind) (hasPrev : Bool) (relid : Oid)
    (hEn : HYPO_ENABLED s = true)
    (hHyp : hypo_table_oid_is_hypothetical s relid = true) :
    Action.injectPartitioning relid ∈
      hypo_get_relation_info_hook s relkindOf hasPrev relid := by
  unfold hypo_get_relation_info_hook
  simp [hEn, hHyp]

/-- Witness for C10: partitioning is injected for a registered table
identifier even when the opened relation's kind is neither an ordinary
table nor a materialized view. -/
theorem partitioning_injection_ignores_relkind_witness :
    Action.injectPartitioning 42 ∈
      hypo_get_relation_info_hook ⟨true, true, [], [⟨42, [43, 44], 7⟩]⟩
        (fun _ => RelKind.otherKind) false 42 :=
  partitioning_injection_ignores_relkind
    ⟨true, true, [], [⟨42, [43, 44], 7⟩]⟩
    (fun _ => RelKind.otherKind) false 42 rfl rfl

/-- C5: during an active simulation window, the find-all-inheritors
hook on a hypothetical table's identifier returns that identifier
consed onto the identifiers of the table's synthesized children,
independently of any previously installed handler (no physical
metadata is consulted). -/
theorem find_all_inheritors_spec (s : HypoState)
    (prev : Option (Oid → List Oid)) (relid : Oid)
    (hEn : HYPO_ENABLED s = true)
    (hHyp : hypo_table_oid_is_hypothetical s relid = true) :
    ∃ t, hypo_find_table s relid = some t ∧
      hypo_find_all_inheritors_hook s prev relid
        = relid :: hypo_find_inheritance_children t := by
  obtain ⟨t, ht⟩ := find_table_of_hypothetical s relid hHyp
  refine ⟨t, ht, ?_⟩
  unfold hypo_find_all_inheritors_hook
  rw [if_pos ⟨hEn, hHyp⟩, ht]

/-- Witness for C5: table 42 with children 43 and 44 yields the list
42, 43, 44. -/
theorem find_all_inheritors_spec_witness :
    hypo_find_all_inheritors_hook
      ⟨true, true, [], [⟨42, [43, 44], 7⟩]⟩ none 42 = [42, 43, 44] := by
  obtain ⟨t, ht, he⟩ := find_all_inheritors_spec
    ⟨true, true, [], [⟨42, [43, 44], 7⟩]⟩ none 42 rfl rfl
  have hteq : (⟨42, [43, 44], 7⟩ : hypoTable) = t := Option.some_inj.mp ht
  rw [he, ← hteq]
  rfl

/-- C6: during an active simulation window, the has-subclass hook
answers true on a hypothetical table's identifier whatever handler was
previously installed, and on any other identifier delegates to the
previous handler or answers false when none is installed. -/
theorem skip_has_subclass_spec (s : HypoState)
    (prev : Option (Oid → Bool)) (parentOID : Oid)
    (hEn : HYPO_ENABLED s = true) :
    (hypo_table_oid_is_hypothetical s parentOID = true →
      hypo_skip_has_subclass_hook s prev parentOID = true)
    ∧ (hypo_table_oid_is_hypothetical s parentOID = false →
      hypo_skip_has_subclass_hook s prev parentOID
        = unloadedDelegate prev false parentOID) := by
  constructor
  · intro hHyp
    unfold hypo_skip_has_subclass_hook
    rw [if_pos ⟨hEn, hHyp⟩]
  · intro hHyp
    unfold hypo_skip_has_subclass_hook unloadedDelegate
    rw [if_neg (fun hc => Bool.false_ne_true (hHyp ▸ hc.2))]
    cases prev <;> rfl

/-- Witness for C6: with table 42 registered, the hook answers true for
42 and false for the unregistered 7 with no previous handler. -/
theorem skip_has_subclass_spec_witness :
    hypo_skip_has_subclass_hook ⟨true, true, [], [⟨42, [], 0⟩]⟩ none 42 = true
    ∧ hypo_skip_has_subclass_hook ⟨true, true, [], [⟨42, [], 0⟩]⟩ none 7
        = false := by
  constructor
  · exact (skip_has_subclass_spec ⟨true, true, [], [⟨42, [], 0⟩]⟩
      none 42 rfl).1 rfl
  · have h := (skip_has_subclass_spec ⟨true, true, [], [⟨42, [], 0⟩]⟩
      none 7 rfl).2 rfl
    simpa [unloadedDelegate] using h

/-- C2: when the simulation window is inactive — the Explain-Mode flag
false or the hypopg.enabled toggle false — each of the eight injection
hooks performs no injection and produces exactly the behaviour of the
extension not being loaded: the action trace is only the delegation to
the previous handler, and each value-returning hook returns what the
previous handler (or the host default) returns. -/
theorem hooks_inactive_noop (s : HypoState)
    (h : s.isExplain = false ∨ s.hypo_is_enabled = false) :
    (∀ relkindOf hasPrev relid,
      hypo_get_relation_info_hook s relkindOf hasPrev relid
        = unloadedTrace hasPrev)
    ∧ (∀ hasPrev rti rte,
      hypo_set_rel_pathlist_hook s hasPrev rti rte = unloadedTrace hasPrev)
    ∧ (∀ prev relid,
      hypo_RelationGetPartitionDesc_hook s prev relid
        = unloadedDelegate prev none relid)
    ∧ (∀ prev relid,
      hypo_RelationGetPartitionKey_hook s prev relid
        = unloadedDelegate prev none relid)
    ∧ (∀ prev parentOID,
      hypo_skip_has_subclass_hook s prev parentOID
        = unloadedDelegate prev false parentOID)
    ∧ (∀ prev relid,
      hypo_find_all_inheritors_hook s prev relid
        = unloadedDelegate prev [] relid)
    ∧ (∀ hasPrev parentrelId,
      hypo_expand_child_rtentry_hook s hasPrev parentrelId
        = unloadedTrace hasPrev)
    ∧ (∀ hasPrev childrte,
      hypo_build_child_rtentry_hook s hasPrev childrte
        = unloadedTrace hasPrev) := by
  have hEn : HYPO_ENABLED s = false := by
    rcases h with h | h <;> simp [HYPO_ENABLED, h]
  refine ⟨?_, ?_, ?_, ?_, ?_, ?_, ?_, ?_⟩
  · intro relkindOf hasPrev relid
    simp [hypo_get_relation_info_hook, hEn, unloadedTrace]
  · intro hasPrev rti rte
    simp [hypo_set_rel_pathlist_hook, hEn, unloadedTrace]
  · intro prev relid
    simp only [hypo_RelationGetPartitionDesc_hook, hEn, unloadedDelegate,
      Bool.false_eq_true, false_and, if_false]
    cases prev <;> rfl
  · intro prev relid
    simp only [hypo_RelationGetPartitionKey_hook, hEn, unloadedDelegate,
      Bool.false_eq_true, false_and, if_false]
    cases prev <;> rfl
  · intro prev parentOID
    simp only [hypo_skip_has_subclass_hook, hEn, unloadedDelegate,
      Bool.false_eq_true, false_and, if_false]
    cases prev <;> rfl
  · intro prev relid
    simp only [hypo_find_all_inheritors_hook, hEn, unloadedDelegate,
      Bool.false_eq_true, false_and, if_false]
    cases prev <;> rfl
  · intro hasPrev parentrelId
    simp [hypo_expand_child_rtentry_hook, hEn, unloadedTrace]
  · intro hasPrev childrte
    simp [hypo_build_child_rtentry_hook, hEn, unloadedTrace]

/-- Witness for C2: with a hypothetical table and index registered but
the Explain-Mode flag false, the partition-descriptor hook returns the
host default and the relation-info hook only delegates. -/
theorem hooks_inactive_noop_witness :
    hypo_RelationGetPartitionDesc_hook
      ⟨false, true, [⟨100, 10⟩], [⟨42, [43], 7⟩]⟩ none 42 = none
    ∧ hypo_get_relation_info_hook
      ⟨false, true, [⟨100, 10⟩], [⟨42, [43], 7⟩]⟩
      (fun _ => RelKind.relation) true 10 = [Action.callPrev] := by
  constructor
  · have h := (hooks_inactive_noop
      ⟨false, true, [⟨100, 10⟩], [⟨42, [43], 7⟩]⟩ (Or.inl rfl)).2.2.1 none 42
    simpa [unloadedDelegate] using h
  · have h := (hooks_inactive_noop
      ⟨false, true, [⟨100, 10⟩], [⟨42, [43], 7⟩]⟩ (Or.inl rfl)).1
      (fun _ => RelKind.relation) true 10
    simpa [unloadedTrace] using h

end HypoPG
